import Mathlib

/-!
Shallow embedding of `akamai_usage_reporter/__main__.py` (the single source
module of the repository) and proofs about the claims its specification makes.

JSON values flowing through the program are modelled by the mutual inductive
`JVal`/`JArr`/`JObj`; Python `dict.get`, truthiness and `or` are modelled by
`pyGetD`/`pyGet`/`truthy`/`pyOr`.  Network calls are modelled by pure oracles
(`get` functions returning `Except Unit JVal`): a raised exception is
`Except.error ()`, a JSON body is `Except.ok v`.  File output is modelled by
returning the produced lines/rows as lists.
-/

mutual
inductive JVal where
  | null
  | bool (b : Bool)
  | num (n : Int)
  | str (s : String)
  | arr (xs : JArr)
  | obj (fs : JObj)
deriving DecidableEq
inductive JArr where
  | nil
  | cons (hd : JVal) (tl : JArr)
deriving DecidableEq
inductive JObj where
  | nil
  | cons (k : String) (v : JVal) (tl : JObj)
deriving DecidableEq
end

def JArr.toList : JArr → List JVal
  | .nil => []
  | .cons x xs => x :: xs.toList

def JArr.ofList : List JVal → JArr
  | [] => .nil
  | x :: xs => .cons x (JArr.ofList xs)

def JObj.toList : JObj → List (String × JVal)
  | .nil => []
  | .cons k v rest => (k, v) :: rest.toList

def JObj.ofList : List (String × JVal) → JObj
  | [] => .nil
  | (k, v) :: rest => .cons k v (JObj.ofList rest)

/-- Convenience constructor for a JSON array literal. -/
def jarr (xs : List JVal) : JVal := .arr (JArr.ofList xs)

/-- Convenience constructor for a JSON object literal. -/
def jobj (fs : List (String × JVal)) : JVal := .obj (JObj.ofList fs)

/-- First binding of `key` in an object, modelling Python dict lookup
(JSON objects produced by `json.loads` have unique keys). -/
def JObj.lookupKey : JObj → String → Option JVal
  | .nil, _ => none
  | .cons k v rest, key => if k = key then some v else rest.lookupKey key

/-- Python `d.get(key, dflt)`: the default is used only when the key is absent.
On a non-object the model returns the default (the Python code only calls
`.get` on dicts). -/
def pyGetD (v : JVal) (key : String) (dflt : JVal) : JVal :=
  match v with
  | .obj fs => (fs.lookupKey key).getD dflt
  | _ => dflt

/-- Python `d.get(key)`: `None` for an absent key.  JSON `null` and Python
`None` coincide, so both map to `JVal.null`. -/
def pyGet (v : JVal) (key : String) : JVal := pyGetD v key .null

def JArr.isNil : JArr → Bool
  | .nil => true
  | .cons _ _ => false

def JObj.isNil : JObj → Bool
  | .nil => true
  | .cons _ _ _ => false

/-- Python truthiness of a JSON value: `None`, `False`, `0`, `""`, `[]`, `{}`
are falsy, everything else truthy. -/
def truthy : JVal → Bool
  | .null => false
  | .bool b => b
  | .num n => decide (n ≠ 0)
  | .str s => decide (s ≠ "")
  | .arr xs => !xs.isNil
  | .obj fs => !fs.isNil

/-- Python `a or b`. -/
def pyOr (a b : JVal) : JVal := if truthy a then a else b

/-- Viewing a JSON value as a list (used where the Python code iterates over a
value that is a JSON array). -/
def asList : JVal → List JVal
  | .arr xs => xs.toList
  | _ => []

/-- Viewing a JSON value as object fields (used where the Python code splats
`**options`). -/
def asFields : JVal → List (String × JVal)
  | .obj fs => fs.toList
  | _ => []

/-- Viewing a JSON value as a string (used where the Python code applies string
operations; the program only does so to string-valued fields). -/
def asStr : JVal → String
  | .str s => s
  | _ => ""

/-- Python `d[k] = v` on an assoc list: override in place, else append. -/
def dictSet : List (String × JVal) → String → JVal → List (String × JVal)
  | [], k, v => [(k, v)]
  | (k1, v1) :: rest, k, v =>
    if k1 = k then (k, v) :: rest else (k1, v1) :: dictSet rest k v

/-- Python `{**base, **extra}` field calculation. -/
def dictMerge (base extra : List (String × JVal)) : List (String × JVal) :=
  extra.foldl (fun acc kv => dictSet acc kv.1 kv.2) base

-- ---------------- rules parsing (`flatten_rules`, `parse_behaviors`) ------

/-- A configuration rule-tree node: `behaviors` is the node's list of behavior
entries (JSON objects), `children` its list of child nodes.  Being an
inductive type, a `Rule` is exactly a finite acyclic tree, which is the shape
claim C9 quantifies over. -/
inductive Rule where
  | node (behaviors : List JVal) (children : List Rule)

def Rule.behaviors : Rule → List JVal
  | .node bs _ => bs

def Rule.children : Rule → List Rule
  | .node _ cs => cs

mutual
def Rule.size : Rule → Nat
  | .node _ cs => 1 + Rule.sizeList cs
def Rule.sizeList : List Rule → Nat
  | [] => 0
  | r :: rs => Rule.size r + Rule.sizeList rs
end

mutual
/-- All nodes of a tree, in preorder (root before children, siblings left to
right): the canonical enumeration every traversal is compared against. -/
def Rule.allNodes : Rule → List Rule
  | .node bs cs => .node bs cs :: Rule.allNodesList cs
def Rule.allNodesList : List Rule → List Rule
  | [] => []
  | r :: rs => Rule.allNodes r ++ Rule.allNodesList rs
end

theorem Rule.sizeList_append (a b : List Rule) :
    Rule.sizeList (a ++ b) = Rule.sizeList a + Rule.sizeList b := by
  induction a with
  | nil => simp [Rule.sizeList]
  | cons r rs ih => simp [Rule.sizeList, ih]; omega

theorem Rule.sizeList_reverse (a : List Rule) :
    Rule.sizeList a.reverse = Rule.sizeList a := by
  induction a with
  | nil => rfl
  | cons r rs ih =>
    simp [Rule.sizeList, List.reverse_cons, Rule.sizeList_append, ih]
    omega

/-- The loop of `flatten_rules` (lines 256-264): `nodes` accumulates visited
nodes (in reverse, since Python appends at the end), `stack` is the explicit
stack with its top at the head.  Python pushes children in order and pops from
the end, i.e. pops the last child first; with the top at the head this is
pushing `children.reverse`. -/
def flattenLoop (nodes : List Rule) (stack : List Rule) : List Rule :=
  match stack with
  | [] => nodes.reverse
  | cur :: rest => flattenLoop (cur :: nodes) (cur.children.reverse ++ rest)
termination_by Rule.sizeList stack
decreasing_by
  cases r with
  | node bs cs =>
    simp [Rule.sizeList, Rule.children, Rule.sizeList_append,
      Rule.sizeList_reverse, Rule.size]

/-- `flatten_rules` (lines 256-264). -/
def flatten_rules (node : Rule) : List Rule := flattenLoop [] [node]

/-- The four-bucket parsed rule bundle built by `parse_behaviors`. -/
structure ParsedRules where
  cache : List JVal
  redirects : List JVal
  headers : List JVal
  hsts : List JVal
deriving DecidableEq

def emptyParsed : ParsedRules := ⟨[], [], [], []⟩

/-- The `{"name": name, **options}` dict built in the headers branch. -/
def headerEntryOf (name options : JVal) : JVal :=
  .obj (JObj.ofList (dictMerge [("name", name)] (asFields options)))

/-- The `name = behavior.get("name")` local of the inner loop. -/
def behaviorNameOf (behavior : JVal) : JVal := pyGet behavior "name"

/-- The `options = behavior.get("options", {})` local of the inner loop. -/
def optionsOf (behavior : JVal) : JVal := pyGetD behavior "options" (jobj [])

/-- The lowercased `options.get("headerName", "")` of the HSTS branch (the
program only meets string-valued header names; `.toLower` models Python
`str.lower` on ASCII header names). -/
def headerNameLower (behavior : JVal) : String :=
  (asStr (pyGetD (optionsOf behavior) "headerName" (JVal.str ""))).toLower

/-- Classification of one behavior entry: the body of the inner loop of
`parse_behaviors` (lines 275-294), an `elif` chain appending to one bucket. -/
def classifyStep (p : ParsedRules) (behavior : JVal) : ParsedRules :=
  if behaviorNameOf behavior = JVal.str "caching" then
    { p with cache := p.cache ++ [optionsOf behavior] }
  else if (behaviorNameOf behavior = JVal.str "redirect"
        ∨ behaviorNameOf behavior = JVal.str "responseCode")
      ∧ truthy (optionsOf behavior) then
    { p with redirects := p.redirects ++ [optionsOf behavior] }
  else if behaviorNameOf behavior = JVal.str "modifyOutgoingResponseHeader"
      ∨ behaviorNameOf behavior = JVal.str "modifyOutgoingRequestHeader" then
    { p with headers :=
        p.headers ++ [headerEntryOf (behaviorNameOf behavior) (optionsOf behavior)] }
  else if behaviorNameOf behavior = JVal.str "hsts"
      ∨ behaviorNameOf behavior = JVal.str "httpStrictTransportSecurity"
      ∨ behaviorNameOf behavior = JVal.str "setHsts"
      ∨ (behaviorNameOf behavior = JVal.str "setResponseHeader"
        ∧ headerNameLower behavior = "strict-transport-security") then
    { p with hsts := p.hsts ++ [optionsOf behavior] }
  else p

/-- `parse_behaviors` (lines 267-295): fold the classifier over every behavior
of every node produced by `flatten_rules`. -/
def parse_behaviors (rules_root : Rule) : ParsedRules :=
  (flatten_rules rules_root).foldl
    (fun p node => node.behaviors.foldl classifyStep p) emptyParsed

/-- The claim's reading of the HSTS condition: the three explicit HSTS names
match unconditionally, and the lowercased header-name test applies only to the
`"setResponseHeader"` alternative (Python `and` binding tighter than `or`). -/
def hstsCond (behavior : JVal) : Prop :=
  behaviorNameOf behavior = JVal.str "hsts"
    ∨ behaviorNameOf behavior = JVal.str "httpStrictTransportSecurity"
    ∨ behaviorNameOf behavior = JVal.str "setHsts"
    ∨ (behaviorNameOf behavior = JVal.str "setResponseHeader"
      ∧ headerNameLower behavior = "strict-transport-security")

instance (behavior : JVal) : Decidable (hstsCond behavior) := by
  unfold hstsCond
  infer_instance

-- ---------------- theorems: rules parsing ------------------------------

theorem classifyStep_hsts (p : ParsedRules) (b : JVal) :
    (classifyStep p b).hsts =
      if hstsCond b then p.hsts ++ [optionsOf b] else p.hsts := by
  unfold classifyStep hstsCond
  split_ifs <;> first
    | rfl
    | (exfalso; casesm* _ ∨ _, _ ∧ _ <;> simp_all)

theorem foldl_classify_hsts (bs : List JVal) (p : ParsedRules) :
    (bs.foldl classifyStep p).hsts =
      p.hsts ++ (bs.filter (fun b => decide (hstsCond b))).map optionsOf := by
  induction bs generalizing p with
  | nil => simp
  | cons b rest ih =>
    simp only [List.foldl_cons, List.filter_cons, ih, classifyStep_hsts]
    by_cases h : hstsCond b <;> simp [h]

theorem foldl_nodes_hsts (nodes : List Rule) (p : ParsedRules) :
    ((nodes.foldl (fun q node => node.behaviors.foldl classifyStep q) p).hsts) =
      p.hsts ++ ((nodes.flatMap Rule.behaviors).filter
        (fun b => decide (hstsCond b))).map optionsOf := by
  induction nodes generalizing p with
  | nil => simp
  | cons n rest ih =>
    simp only [List.foldl_cons, List.flatMap_cons, List.filter_append, List.map_append,
      ih, foldl_classify_hsts]
    simp

/-- C1: over any rule tree, the hsts bucket of `parse_behaviors` consists of
exactly the option-maps of those behavior entries whose name is one of
`"hsts"`, `"httpStrictTransportSecurity"`, `"setHsts"` (with no header-name
condition), or whose name is `"setResponseHeader"` and whose options'
`headerName`, lowercased, equals `"strict-transport-security"` — the
header-name check binding only to the last alternative, as the source's
chained boolean precedence dictates. -/
theorem hsts_bucket_characterization (rules_root : Rule) :
    (parse_behaviors rules_root).hsts =
      (((flatten_rules rules_root).flatMap Rule.behaviors).filter
        (fun b => decide (hstsCond b))).map optionsOf := by
  unfold parse_behaviors
  rw [foldl_nodes_hsts]
  rfl

theorem Rule.size_pos (r : Rule) : 1 ≤ r.size := by
  cases r with
  | node bs cs => simp [Rule.size]

theorem Rule.allNodesList_eq_flatMap (l : List Rule) :
    Rule.allNodesList l = l.flatMap Rule.allNodes := by
  induction l with
  | nil => rfl
  | cons r rs ih => simp [Rule.allNodesList, ih]

theorem Rule.allNodesList_append (a b : List Rule) :
    Rule.allNodesList (a ++ b) = Rule.allNodesList a ++ Rule.allNodesList b := by
  simp [Rule.allNodesList_eq_flatMap]

theorem Rule.allNodesList_reverse_perm (l : List Rule) :
    List.Perm (Rule.allNodesList l.reverse) (Rule.allNodesList l) := by
  rw [Rule.allNodesList_eq_flatMap, Rule.allNodesList_eq_flatMap]
  exact (List.reverse_perm l).flatMap_right _

theorem flattenLoop_nil (nodes : List Rule) :
    flattenLoop nodes [] = nodes.reverse := by
  rw [flattenLoop.eq_def]

theorem flattenLoop_cons (nodes : List Rule) (cur : Rule) (rest : List Rule) :
    flattenLoop nodes (cur :: rest) =
      flattenLoop (cur :: nodes) (cur.children.reverse ++ rest) := by
  rw [flattenLoop.eq_def]

theorem flattenLoop_perm_aux (n : Nat) :
    ∀ stack nodes : List Rule, Rule.sizeList stack ≤ n →
      List.Perm (flattenLoop nodes stack)
        (nodes.reverse ++ Rule.allNodesList stack) := by
  induction n with
  | zero =>
    intro stack nodes h
    cases stack with
    | nil => simp [flattenLoop_nil, Rule.allNodesList]
    | cons r rs =>
      exfalso
      have h1 := Rule.size_pos r
      simp [Rule.sizeList] at h
      omega
  | succ n ih =>
    intro stack nodes h
    cases stack with
    | nil => simp [flattenLoop_nil, Rule.allNodesList]
    | cons r rs =>
      rw [flattenLoop_cons]
      cases r with
      | node bs cs =>
        have hsz : Rule.sizeList ((Rule.node bs cs).children.reverse ++ rs) ≤ n := by
          simp [Rule.children, Rule.sizeList_append, Rule.sizeList_reverse]
          simp [Rule.sizeList, Rule.size] at h
          omega
        have hIH := ih ((Rule.node bs cs).children.reverse ++ rs) (Rule.node bs cs :: nodes) hsz
        refine hIH.trans ?_
        rw [List.reverse_cons, Rule.allNodesList_append, Rule.children]
        have hrev : List.Perm
            (Rule.allNodesList (cs.reverse) ++ Rule.allNodesList rs)
            (Rule.allNodesList cs ++ Rule.allNodesList rs) :=
          (Rule.allNodesList_reverse_perm cs).append_right _
        have h2 : List.Perm
            (nodes.reverse ++ [Rule.node bs cs]
              ++ (Rule.allNodesList cs.reverse ++ Rule.allNodesList rs))
            (nodes.reverse ++ [Rule.node bs cs]
              ++ (Rule.allNodesList cs ++ Rule.allNodesList rs)) :=
          hrev.append_left _
        refine h2.trans ?_
        have h3 : nodes.reverse ++ [Rule.node bs cs]
              ++ (Rule.allNodesList cs ++ Rule.allNodesList rs)
            = nodes.reverse ++ Rule.allNodesList (Rule.node bs cs :: rs) := by
          simp [Rule.allNodesList, Rule.allNodes]
        rw [h3]

/-- C9: for every finite acyclic rule tree (the shape of the inductive `Rule`
type), `flatten_rules` terminates (it is a total function) and returns a list
that is a permutation of the preorder enumeration of the tree's nodes, i.e.
every node of the tree occurs exactly once. -/
theorem flatten_rules_perm_allNodes (t : Rule) :
    List.Perm (flatten_rules t) (Rule.allNodes t) := by
  have h := flattenLoop_perm_aux (Rule.sizeList [t]) [t] [] le_rfl
  simpa [Rule.allNodesList] using h

/-- C8: classifying a tree of a single node whose only behavior is
`{name: "caching", options: {ttl: 300}}` yields exactly one cache entry equal
to `{ttl: 300}` and empty redirects/headers/hsts buckets. -/
theorem parse_behaviors_caching_singleton :
    parse_behaviors
        (.node [jobj [("name", .str "caching"), ("options", jobj [("ttl", .num 300)])]] [])
      = { cache := [jobj [("ttl", .num 300)]],
          redirects := [], headers := [], hsts := [] } := by
  simp [parse_behaviors, flatten_rules, flattenLoop_cons, flattenLoop_nil,
    Rule.children, Rule.behaviors, classifyStep, behaviorNameOf, optionsOf,
    pyGet, pyGetD, jobj, JObj.ofList, JObj.lookupKey, emptyParsed]

-- ---------------- apex extraction (`apex_of`) ---------------------------

/-- Splitting a character list on `'.'`, modelling Python `str.split(".")`
(and the label split performed inside `tldextract`): `"".split(".")` is
`[""]`, consecutive dots yield empty labels. -/
def splitDotAux : List Char → List Char → List (List Char)
  | [], acc => [acc.reverse]
  | c :: rest, acc =>
    if c = '.' then acc.reverse :: splitDotAux rest []
    else splitDotAux rest (c :: acc)

def labelsOf (hostname : String) : List String :=
  (splitDotAux hostname.data []).map (fun l => String.mk l)

/-- Modelled from the spec: the public-suffix list consulted by the
third-party `tldextract` library (not part of this repository), restricted to
the suffixes the spec's examples exercise, each as its label list. -/
def publicSuffixes : List (List String) :=
  [["com"], ["net"], ["org"], ["io"], ["uk"], ["co", "uk"]]

/-- `s` is a (label-wise) suffix of `l`. -/
def isLabelSuffix (s l : List String) : Bool :=
  decide (s.length ≤ l.length) && decide (l.drop (l.length - s.length) = s)

def joinDots (ls : List String) : String :=
  match ls with
  | [] => ""
  | l :: rest => rest.foldl (fun acc x => acc ++ "." ++ x) l

/-- Modelled from the spec: `tldextract`'s registrable-domain extraction —
the longest known public suffix matching the end of the hostname plus the one
label before it; `""` (Python falsy) when no known suffix matches or no label
precedes the matched suffix. -/
def registered_domain (hostname : String) : String :=
  let ls := labelsOf hostname
  let best := (publicSuffixes.filter (fun s => isLabelSuffix s ls)).foldl
    (fun acc s => if acc.length < s.length then s else acc) []
  if best.isEmpty then ""
  else if ls.length ≤ best.length then ""
  else joinDots (ls.drop (ls.length - (best.length + 1)))

/-- `apex_of` (lines 305-309): the registrable domain when `tldextract` finds
one, otherwise the raw hostname. -/
def apex_of (hostname : String) : String :=
  if registered_domain hostname = "" then hostname
  else registered_domain hostname

-- ---------------- main loop over properties (lines 636-674) -------------

/-- Python `str(v)` / f-string interpolation for the scalar values the
program formats. -/
def pyStr : JVal → String
  | .null => "None"
  | .bool b => if b then "True" else "False"
  | .num n => toString n
  | .str s => s
  | .arr _ => ""
  | .obj _ => ""

/-- Python `int(v)` on the version values the program converts (ints, or
numeric strings). -/
def pyInt : JVal → Int
  | .num n => n
  | .str s => (s.toInt?).getD 0
  | .bool b => if b then 1 else 0
  | _ => 0

/-- The `HostnameRecord` dataclass (lines 463-469). -/
structure HostnameRecord where
  apex : String
  hostname : String
  property_name : String
  property_id : String
  property_version : Int
deriving DecidableEq

/-- The `latest_version` chain of `or`-defaults (lines 639-643). -/
def latestVersionOf (prop : JVal) : JVal :=
  pyOr (pyGet prop "latestVersion")
    (pyOr (pyGet prop "productionVersion") (pyGet prop "stagingVersion"))

/-- The `hn.get("cnameFrom") or hn.get("hostname", "")` expression used for
both the `apex` and the `hostname` field (lines 658-659). -/
def hostnameValueOf (hn : JVal) : JVal :=
  pyOr (pyGet hn "cnameFrom") (pyGetD hn "hostname" (.str ""))

/-- One iteration of the main properties loop (lines 636-674): the hostname
records and the `parsed_by_property` entries the property contributes.  The
two per-property GETs are oracles (`Except.error ()` models an exception); a
failing hostnames fetch degrades to `[]` (line 652-653), a failing rules
fetch contributes no parsed entry (line 673-674).  A property whose
`propertyId` or whose whole version chain is falsy is skipped (line 644). -/
def processProp (getHostnames : JVal → Int → JVal → JVal → Except Unit (List JVal))
    (getRules : JVal → Int → JVal → JVal → Except Unit Rule)
    (include_rules : Bool) (prop : JVal) :
    List HostnameRecord × List (String × ParsedRules) :=
  let property_id := pyGet prop "propertyId"
  let property_name := pyGet prop "propertyName"
  let latest_version := latestVersionOf prop
  if !truthy property_id || !truthy latest_version then ([], [])
  else
    let contract_id := pyGet prop "contractId"
    let group_id := pyGet prop "groupId"
    let hostnames :=
      match getHostnames property_id (pyInt latest_version) contract_id group_id with
      | .ok hs => hs
      | .error _ => []
    let records := hostnames.map (fun hn =>
      { apex := apex_of (asStr (hostnameValueOf hn))
        hostname := asStr (hostnameValueOf hn)
        property_name := pyStr property_name
        property_id := pyStr property_id
        property_version := pyInt latest_version })
    let parsedHere :=
      if include_rules then
        match getRules property_id (pyInt latest_version) contract_id group_id with
        | .ok rules =>
          [(pyStr property_id ++ ":" ++ pyStr latest_version, parse_behaviors rules)]
        | .error _ => []
      else []
    (records, parsedHere)

/-- The whole main properties loop: `host_records` and `parsed_by_property`
accumulated over the listed properties in order. -/
def mainLoop (getHostnames : JVal → Int → JVal → JVal → Except Unit (List JVal))
    (getRules : JVal → Int → JVal → JVal → Except Unit Rule)
    (include_rules : Bool) (props : List JVal) :
    List HostnameRecord × List (String × ParsedRules) :=
  props.foldl (fun acc prop =>
    let contrib := processProp getHostnames getRules include_rules prop
    (acc.1 ++ contrib.1, acc.2 ++ contrib.2)) ([], [])

theorem mainLoop_components
    (getHostnames : JVal → Int → JVal → JVal → Except Unit (List JVal))
    (getRules : JVal → Int → JVal → JVal → Except Unit Rule)
    (include_rules : Bool) :
    ∀ (props : List JVal) (acc : List HostnameRecord × List (String × ParsedRules)),
      props.foldl (fun acc prop =>
          let contrib := processProp getHostnames getRules include_rules prop
          (acc.1 ++ contrib.1, acc.2 ++ contrib.2)) acc =
        (acc.1 ++ props.flatMap (fun p => (processProp getHostnames getRules include_rules p).1),
         acc.2 ++ props.flatMap (fun p => (processProp getHostnames getRules include_rules p).2)) := by
  intro props
  induction props with
  | nil => intro acc; simp
  | cons p rest ih =>
    intro acc
    simp only [List.foldl_cons, ih, List.flatMap_cons, List.append_assoc]

/-- C10: a property whose `propertyId` is absent or falsy, or whose
`latestVersion`, `productionVersion` and `stagingVersion` are all absent or
falsy (e.g. 0), is silently skipped by the main loop: it contributes no
hostname records and no parsed rule bundle (hence no rows to any report), and
deleting it from the listed properties leaves the loop's output unchanged;
no error is raised (the model is a total function). -/
theorem falsy_property_skipped
    (getHostnames : JVal → Int → JVal → JVal → Except Unit (List JVal))
    (getRules : JVal → Int → JVal → JVal → Except Unit Rule)
    (include_rules : Bool) (prop : JVal)
    (h : truthy (pyGet prop "propertyId") = false
      ∨ (truthy (pyGet prop "latestVersion") = false
        ∧ truthy (pyGet prop "productionVersion") = false
        ∧ truthy (pyGet prop "stagingVersion") = false)) :
    processProp getHostnames getRules include_rules prop = ([], []) ∧
    ∀ props1 props2 : List JVal,
      mainLoop getHostnames getRules include_rules (props1 ++ prop :: props2)
        = mainLoop getHostnames getRules include_rules (props1 ++ props2) := by
  have hskip : processProp getHostnames getRules include_rules prop = ([], []) := by
    unfold processProp
    rcases h with h | ⟨h1, h2, h3⟩
    · simp [h]
    · simp [latestVersionOf, pyOr, h1, h2, h3]
  refine ⟨hskip, fun props1 props2 => ?_⟩
  unfold mainLoop
  rw [mainLoop_components, mainLoop_components]
  simp [hskip]

/-- C5: every hostname record the main properties loop constructs has its
`apex` field equal to `apex_of` of its `hostname` field (both are built from
the same `cnameFrom`-or-`hostname` value); and, with the spec-modelled
public-suffix data, `"www.example.co.uk"` and `"example.co.uk"` both map to
apex `"example.co.uk"`, while a bare single-label host maps to itself. -/
theorem hostname_record_apex
    (getHostnames : JVal → Int → JVal → JVal → Except Unit (List JVal))
    (getRules : JVal → Int → JVal → JVal → Except Unit Rule)
    (include_rules : Bool) (props : List JVal) (r : HostnameRecord)
    (h : r ∈ (mainLoop getHostnames getRules include_rules props).1) :
    r.apex = apex_of r.hostname ∧
    apex_of "www.example.co.uk" = "example.co.uk" ∧
    apex_of "example.co.uk" = "example.co.uk" ∧
    apex_of "localhost" = "localhost" := by
  refine ⟨?_, by decide, by decide, by decide⟩
  unfold mainLoop at h
  rw [mainLoop_components] at h
  simp only [List.nil_append] at h
  rcases List.mem_flatMap.1 h with ⟨p, hp, hr⟩
  by_cases hc : (!truthy (pyGet p "propertyId") || !truthy (latestVersionOf p)) = true
  · rw [processProp] at hr
    simp only [hc, if_true] at hr
    simp at hr
  · rw [processProp] at hr
    simp only [hc] at hr
    simp only [Bool.not_eq_true] at hc
    rw [if_neg (by simp [hc])] at hr
    rcases List.mem_map.1 hr with ⟨hn, hhn, hrec⟩
    rw [← hrec]

theorem hostname_record_apex_witness :
    ({ apex := "example.co.uk", hostname := "www.example.co.uk",
       property_name := "P", property_id := "p1", property_version := 1 }
        : HostnameRecord).apex
      = apex_of ({ apex := "example.co.uk", hostname := "www.example.co.uk",
                   property_name := "P", property_id := "p1",
                   property_version := 1 } : HostnameRecord).hostname :=
  (hostname_record_apex
    (fun _ _ _ _ => Except.ok [jobj [("cnameFrom", .str "www.example.co.uk")]])
    (fun _ _ _ _ => Except.error ())
    false
    [jobj [("propertyId", .str "p1"), ("propertyName", .str "P"),
      ("latestVersion", .num 1)]]
    { apex := "example.co.uk", hostname := "www.example.co.uk",
      property_name := "P", property_id := "p1", property_version := 1 }
    (by decide)).1

theorem falsy_property_skipped_witness :
    processProp (fun _ _ _ _ => Except.error ()) (fun _ _ _ _ => Except.error ())
      true (jobj [("propertyId", .str "p1"), ("latestVersion", .num 0)]) = ([], []) :=
  (falsy_property_skipped (fun _ _ _ _ => Except.error ())
    (fun _ _ _ _ => Except.error ()) true
    (jobj [("propertyId", .str "p1"), ("latestVersion", .num 0)])
    (Or.inr (by refine ⟨?_, ?_, ?_⟩ <;> decide))).1

-- ---------------- contract/group discovery (`papi_list_properties`) -----

/-- The GET endpoints `papi_list_properties` touches. -/
inductive PapiPath where
  | contracts
  | groups
  | properties (contractId groupId : JVal)
deriving DecidableEq

/-- `data.get("contracts", {}).get("items", [])` (line 107). -/
def contractsItems (d : JVal) : List JVal :=
  asList (pyGetD (pyGetD d "contracts" (jobj [])) "items" (jarr []))

/-- `data.get("groups", {}).get("items", [])` (line 118). -/
def groupsItems (d : JVal) : List JVal :=
  asList (pyGetD (pyGetD d "groups" (jobj [])) "items" (jarr []))

/-- `data.get("properties", {}).get("items", [])` (lines 148, 181). -/
def propertiesItems (d : JVal) : List JVal :=
  asList (pyGetD (pyGetD d "properties" (jobj [])) "items" (jarr []))

/-- The inner loop over groups for one contract (lines 130-161): the adopted
`(contract_id, group_id)` pair, if any, and the probe GETs issued to the
properties path, in order.  A probe that raises is skipped (`continue`); a
probe returning an empty items list just moves on; the first non-empty probe
is adopted and the loop breaks. -/
def groupLoop (get : PapiPath → Except Unit JVal) (contract_id : JVal) :
    List JVal → Option (JVal × JVal) × List (JVal × JVal)
  | [] => (none, [])
  | g :: gs =>
    let group_id := pyGet g "groupId"
    if contract_id ∈ asList (pyGetD g "contractIds" (jarr [])) then
      match get (.properties contract_id group_id) with
      | .error _ =>
        let r := groupLoop get contract_id gs
        (r.1, (contract_id, group_id) :: r.2)
      | .ok d =>
        if (propertiesItems d).isEmpty then
          let r := groupLoop get contract_id gs
          (r.1, (contract_id, group_id) :: r.2)
        else (some (contract_id, group_id), [(contract_id, group_id)])
    else groupLoop get contract_id gs

/-- The outer loop over contracts (lines 127-164): breaks as soon as the
inner loop adopted a combination. -/
def contractLoop (get : PapiPath → Except Unit JVal) :
    List JVal → List JVal → Option (JVal × JVal) × List (JVal × JVal)
  | [], _ => (none, [])
  | c :: cs, groups =>
    match groupLoop get (pyGet c "contractId") groups with
    | (some w, tr) => (some w, tr)
    | (none, tr) =>
      let r := contractLoop get cs groups
      (r.1, tr ++ r.2)

/-- `papi_list_properties` (lines 100-189): the returned property list
(`Except.error ()` when an exception propagates to the caller) together with
the sequence of GET calls issued to the properties path — the search's
probes followed by the final listing call with the adopted pair. -/
def papi_list_properties (get : PapiPath → Except Unit JVal) :
    Except Unit (List JVal) × List (JVal × JVal) :=
  match get .contracts with
  | .error e => (.error e, [])
  | .ok cdata =>
    if (contractsItems cdata).isEmpty then (.ok [], [])
    else
      match get .groups with
      | .error e => (.error e, [])
      | .ok gdata =>
        if (groupsItems gdata).isEmpty then (.ok [], [])
        else
          match contractLoop get (contractsItems cdata) (groupsItems gdata) with
          | (none, tr) => (.ok [], tr)
          | (some wc, tr) =>
            match get (.properties wc.1 wc.2) with
            | .error e => (.error e, tr ++ [wc])
            | .ok d => (.ok (propertiesItems d), tr ++ [wc])

/-- The one-pair test of the search, shared by the spec-side search
description: `some (contract_id, group_id)` iff the group lists the contract
and the probe returns a non-empty items list. -/
def pairProbe (get : PapiPath → Except Unit JVal) (contract_id g : JVal) :
    Option (JVal × JVal) :=
  if contract_id ∈ asList (pyGetD g "contractIds" (jarr [])) then
    match get (.properties contract_id (pyGet g "groupId")) with
    | .ok d =>
      if (propertiesItems d).isEmpty then none
      else some (contract_id, pyGet g "groupId")
    | .error _ => none
  else none

/-- The spec's discovery policy, stated directly on the two lists: walk the
contract × group cross product in order (contracts major, groups minor),
skip pairs whose group does not list the contract, and adopt the first pair
whose properties probe returns a non-empty items list. -/
def firstWorkingPair (get : PapiPath → Except Unit JVal)
    (contracts groups : List JVal) : Option (JVal × JVal) :=
  ((contracts.flatMap (fun c => groups.map (fun g => (c, g)))).filterMap
    (fun cg => pairProbe get (pyGet cg.1 "contractId") cg.2)).head?

theorem groupLoop_fst (get : PapiPath → Except Unit JVal) (cid : JVal)
    (gs : List JVal) :
    (groupLoop get cid gs).1 = (gs.filterMap (pairProbe get cid)).head? := by
  induction gs with
  | nil => rfl
  | cons g rest ih =>
    unfold groupLoop
    by_cases hm : cid ∈ asList (pyGetD g "contractIds" (jarr []))
    · cases hg : get (.properties cid (pyGet g "groupId")) with
      | error e => simp [hm, hg, ih, pairProbe, List.filterMap_cons]
      | ok d =>
        by_cases he : (propertiesItems d).isEmpty
        · simp [hm, hg, he, ih, pairProbe, List.filterMap_cons]
        · simp [hm, hg, he, pairProbe, List.filterMap_cons]
    · simp [hm, ih, pairProbe, List.filterMap_cons]

theorem contractLoop_fst (get : PapiPath → Except Unit JVal)
    (cs groups : List JVal) :
    (contractLoop get cs groups).1 = firstWorkingPair get cs groups := by
  induction cs with
  | nil => rfl
  | cons c rest ih =>
    unfold contractLoop firstWorkingPair
    rw [List.flatMap_cons, List.filterMap_append, List.head?_append,
      List.filterMap_map]
    have hfun : ((fun cg => pairProbe get (pyGet cg.1 "contractId") cg.2)
        ∘ (fun g => (c, g))) = pairProbe get (pyGet c "contractId") := rfl
    rw [hfun]
    have hfst := groupLoop_fst get (pyGet c "contractId") groups
    cases hgl : groupLoop get (pyGet c "contractId") groups with
    | mk o tr =>
      rw [hgl] at hfst
      cases o with
      | some w =>
        rw [← hfst]
        rfl
      | none =>
        rw [← hfst]
        show (contractLoop get rest groups).1 = _
        rw [ih]
        rfl

theorem firstWorkingPair_probe (get : PapiPath → Except Unit JVal)
    (cs groups : List JVal) (wc : JVal × JVal)
    (h : firstWorkingPair get cs groups = some wc) :
    ∃ d, get (.properties wc.1 wc.2) = .ok d
      ∧ (propertiesItems d).isEmpty = false := by
  unfold firstWorkingPair at h
  have hmem : wc ∈ (cs.flatMap (fun c => groups.map (fun g => (c, g)))).filterMap
      (fun cg => pairProbe get (pyGet cg.1 "contractId") cg.2) :=
    List.mem_of_mem_head? (by simp [h])
  rcases List.mem_filterMap.1 hmem with ⟨cg, _, hp⟩
  unfold pairProbe at hp
  by_cases hm : (pyGet cg.1 "contractId")
      ∈ asList (pyGetD cg.2 "contractIds" (jarr []))
  · rw [if_pos hm] at hp
    cases hget : get (.properties (pyGet cg.1 "contractId") (pyGet cg.2 "groupId")) with
    | error e => simp [hget] at hp
    | ok d =>
      simp only [hget] at hp
      by_cases he : (propertiesItems d).isEmpty
      · rw [if_pos he] at hp; cases hp
      · rw [if_neg he] at hp
        have hwc := Option.some.inj hp
        refine ⟨d, ?_, ?_⟩
        · rw [← hwc]; exact hget
        · exact eq_false_of_ne_true he
  · rw [if_neg hm] at hp; cases hp

/-- C2: given the contracts and groups lists the endpoints return, the
discovery iterates contracts in order, for each iterates groups in order,
skips pairs whose group does not list the contract id in `contractIds`,
adopts the first pair whose properties probe returns a non-empty items list
(and returns that pair's listing), and returns `ok []` — rather than raising
— when no pair yields a non-empty result. -/
theorem papi_discovery_policy (get : PapiPath → Except Unit JVal)
    (cdata gdata : JVal)
    (hc : get .contracts = .ok cdata) (hg : get .groups = .ok gdata) :
    (papi_list_properties get).1 =
      .ok (match firstWorkingPair get (contractsItems cdata) (groupsItems gdata) with
        | none => []
        | some wc =>
          match get (.properties wc.1 wc.2) with
          | .ok d => propertiesItems d
          | .error _ => []) := by
  unfold papi_list_properties
  simp only [hc]
  by_cases hce : (contractsItems cdata).isEmpty
  · have h0 : contractsItems cdata = [] := List.isEmpty_iff.1 hce
    simp [firstWorkingPair, h0]
  · rw [if_neg hce]
    simp only [hg]
    by_cases hge : (groupsItems gdata).isEmpty
    · have h0 : groupsItems gdata = [] := List.isEmpty_iff.1 hge
      have h1 : ((contractsItems cdata).flatMap
          (fun c => ([] : List (JVal × JVal)))) = [] := by
        simp
      simp [firstWorkingPair, h0, h1]
    · rw [if_neg hge]
      have hfst := contractLoop_fst get (contractsItems cdata) (groupsItems gdata)
      cases hcl : contractLoop get (contractsItems cdata) (groupsItems gdata) with
      | mk o tr =>
        rw [hcl] at hfst
        simp only [] at hfst
        cases o with
        | none =>
          rw [← hfst]
        | some wc =>
          rw [← hfst]
          obtain ⟨d, hget, hne⟩ :=
            firstWorkingPair_probe get (contractsItems cdata) (groupsItems gdata) wc
              hfst.symm
          simp only [hget]

/-- A concrete oracle: one contract `C1`, one group `G1` listing `C1`, and a
one-item properties listing for every probed pair. -/
def papiOracleEx : PapiPath → Except Unit JVal
  | .contracts => .ok (jobj [("contracts",
      jobj [("items", jarr [jobj [("contractId", .str "C1")]])])])
  | .groups => .ok (jobj [("groups",
      jobj [("items", jarr [jobj [("groupId", .str "G1"),
        ("contractIds", jarr [.str "C1"])]])])])
  | .properties _ _ => .ok (jobj [("properties",
      jobj [("items", jarr [jobj [("propertyId", .str "prp_1")]])])])

def papiCdataEx : JVal :=
  jobj [("contracts", jobj [("items", jarr [jobj [("contractId", .str "C1")]])])]

def papiGdataEx : JVal :=
  jobj [("groups", jobj [("items", jarr [jobj [("groupId", .str "G1"),
    ("contractIds", jarr [.str "C1"])]])])]

theorem papi_discovery_policy_witness :
    (papi_list_properties papiOracleEx).1 =
      .ok (match firstWorkingPair papiOracleEx (contractsItems papiCdataEx)
          (groupsItems papiGdataEx) with
        | none => []
        | some wc =>
          match papiOracleEx (.properties wc.1 wc.2) with
          | .ok d => propertiesItems d
          | .error _ => []) :=
  papi_discovery_policy papiOracleEx papiCdataEx papiGdataEx rfl rfl

/-- C3 is false on the code: with one contract and one matching group whose
probe succeeds, the GET sequence to the properties path contains the pair
`(C1, G1)` twice — once as the search probe and once as the final listing
call issued with the adopted pair. -/
theorem papi_pair_probed_twice :
    ¬ ((papi_list_properties papiOracleEx).2.count
        (JVal.str "C1", JVal.str "G1") ≤ 1) := by decide

theorem groupLoop_trace_sublist (get : PapiPath → Except Unit JVal)
    (cid : JVal) (gs : List JVal) :
    (groupLoop get cid gs).2.Sublist
      (gs.map (fun g => (cid, pyGet g "groupId"))) := by
  induction gs with
  | nil => simp [groupLoop]
  | cons g rest ih =>
    unfold groupLoop
    by_cases hm : cid ∈ asList (pyGetD g "contractIds" (jarr []))
    · cases hg2 : get (.properties cid (pyGet g "groupId")) with
      | error e =>
        simp only [hm, if_true, hg2, List.map_cons]
        exact ih.cons₂ _
      | ok d =>
        by_cases he : (propertiesItems d).isEmpty
        · simp only [hm, if_true, hg2, he, List.map_cons]
          exact ih.cons₂ _
        · simp only [hm, if_true, hg2, he, if_neg, List.map_cons]
          exact (List.nil_sublist _).cons₂ _
    · simp only [hm, if_false, List.map_cons]
      exact ih.cons _

theorem contractLoop_trace_sublist (get : PapiPath → Except Unit JVal)
    (cs gs : List JVal) :
    (contractLoop get cs gs).2.Sublist
      (cs.flatMap (fun c => gs.map (fun g =>
        (pyGet c "contractId", pyGet g "groupId")))) := by
  induction cs with
  | nil => simp [contractLoop]
  | cons c rest ih =>
    unfold contractLoop
    rw [List.flatMap_cons]
    cases hgl : groupLoop get (pyGet c "contractId") gs with
    | mk o tr =>
      have hsub := groupLoop_trace_sublist get (pyGet c "contractId") gs
      rw [hgl] at hsub
      cases o with
      | some w => exact hsub.trans (List.sublist_append_left _ _)
      | none => exact List.Sublist.append hsub ih

/-- Occurrences of a pair in a probe trace (instance-free counting). -/
def countPair (l : List (JVal × JVal)) (p : JVal × JVal) : Nat :=
  (l.filter (fun q => decide (q = p))).length

theorem countPair_append (l m : List (JVal × JVal)) (p : JVal × JVal) :
    countPair (l ++ m) p = countPair l p + countPair m p := by
  simp [countPair, List.filter_append]

theorem countPair_le_one_of_nodup (l : List (JVal × JVal)) (h : l.Nodup)
    (p : JVal × JVal) : countPair l p ≤ 1 := by
  rw [countPair]
  have hnd : (l.filter (fun q => decide (q = p))).Nodup :=
    h.sublist (List.filter_sublist _)
  cases hf : l.filter (fun q => decide (q = p)) with
  | nil => simp
  | cons x rest =>
    cases rest with
    | nil => simp
    | cons y rest2 =>
      exfalso
      have hx : x = p := by
        have hm := List.mem_filter.1 (hf ▸ List.mem_cons_self x (y :: rest2))
        exact of_decide_eq_true hm.2
      have hy : y = p := by
        have hm := List.mem_filter.1
          (hf ▸ List.mem_cons_of_mem x (List.mem_cons_self y rest2))
        exact of_decide_eq_true hm.2
      rw [hf] at hnd
      rcases List.nodup_cons.1 hnd with ⟨hnx, _⟩
      exact hnx (by rw [hx, ← hy]; exact List.mem_cons_self y rest2)

theorem cross_pairs_nodup (cs gs : List JVal)
    (hnc : (cs.map (fun c => pyGet c "contractId")).Nodup)
    (hng : (gs.map (fun g => pyGet g "groupId")).Nodup) :
    (cs.flatMap (fun c => gs.map (fun g =>
      (pyGet c "contractId", pyGet g "groupId")))).Nodup := by
  rw [List.nodup_flatMap]
  constructor
  · intro c _
    have h2 : gs.map (fun g => (pyGet c "contractId", pyGet g "groupId"))
        = (gs.map (fun g => pyGet g "groupId")).map
            (fun gid => (pyGet c "contractId", gid)) := by
      rw [List.map_map]
      rfl
    rw [h2]
    refine hng.map ?_
    intro a b hab
    exact congrArg Prod.snd hab
  · have hp : List.Pairwise
        (fun c1 c2 => pyGet c1 "contractId" ≠ pyGet c2 "contractId") cs :=
      List.pairwise_map.mp hnc
    refine hp.imp ?_
    intro c1 c2 hne x hx1 hx2
    rcases List.mem_map.1 hx1 with ⟨g1, _, hg1⟩
    rcases List.mem_map.1 hx2 with ⟨g2, _, hg2⟩
    exact hne (by rw [← hg1] at hg2; exact (congrArg Prod.fst hg2).symm)

/-- C3 (amended): each (contract, group) pair is probed at most once during
the search (given duplicate-free contract ids and group ids), but the full
sequence of GETs to the properties path is the search's probe sequence
followed by one additional call with the adopted pair — the final listing —
so the adopted pair appears exactly twice and every pair at most twice,
rather than every pair at most once as claimed. -/
theorem papi_probe_trace_amended (get : PapiPath → Except Unit JVal)
    (cdata gdata : JVal)
    (hc : get .contracts = .ok cdata) (hg : get .groups = .ok gdata)
    (hnc : ((contractsItems cdata).map (fun c => pyGet c "contractId")).Nodup)
    (hng : ((groupsItems gdata).map (fun g => pyGet g "groupId")).Nodup) :
    (contractLoop get (contractsItems cdata) (groupsItems gdata)).2.Nodup ∧
    (papi_list_properties get).2 =
      (contractLoop get (contractsItems cdata) (groupsItems gdata)).2
        ++ (match (contractLoop get (contractsItems cdata)
              (groupsItems gdata)).1 with
            | some wc => [wc]
            | none => []) ∧
    ∀ p : JVal × JVal, countPair (papi_list_properties get).2 p ≤ 2 := by
  have hnodup : (contractLoop get (contractsItems cdata)
      (groupsItems gdata)).2.Nodup :=
    (cross_pairs_nodup _ _ hnc hng).sublist
      (contractLoop_trace_sublist get _ _)
  have htrace : (papi_list_properties get).2 =
      (contractLoop get (contractsItems cdata) (groupsItems gdata)).2
        ++ (match (contractLoop get (contractsItems cdata)
              (groupsItems gdata)).1 with
            | some wc => [wc]
            | none => []) := by
    unfold papi_list_properties
    simp only [hc]
    by_cases hce : (contractsItems cdata).isEmpty
    · have h0 : contractsItems cdata = [] := List.isEmpty_iff.1 hce
      simp [h0, contractLoop]
    · rw [if_neg hce]
      simp only [hg]
      by_cases hge : (groupsItems gdata).isEmpty
      · have h0 : groupsItems gdata = [] := List.isEmpty_iff.1 hge
        have h1 : contractLoop get (contractsItems cdata) [] = (none, []) := by
          induction (contractsItems cdata) with
          | nil => rfl
          | cons c rest ih => simp [contractLoop, groupLoop, ih]
        simp [h0, h1]
      · rw [if_neg hge]
        cases hcl : contractLoop get (contractsItems cdata) (groupsItems gdata) with
        | mk o tr =>
          cases o with
          | none => simp
          | some wc =>
            cases hget : get (.properties wc.1 wc.2) with
            | error e => simp [hget]
            | ok d => simp [hget]
  refine ⟨hnodup, htrace, fun p => ?_⟩
  rw [htrace, countPair_append]
  have h1 : countPair (contractLoop get (contractsItems cdata)
      (groupsItems gdata)).2 p ≤ 1 :=
    countPair_le_one_of_nodup _ hnodup p
  have h2 : countPair (match (contractLoop get (contractsItems cdata)
      (groupsItems gdata)).1 with
      | some wc => [wc]
      | none => ([] : List (JVal × JVal))) p ≤ 1 := by
    cases (contractLoop get (contractsItems cdata) (groupsItems gdata)).1 with
    | none => simp [countPair]
    | some wc =>
      rw [countPair]
      cases hw : decide (wc = p) <;> simp [List.filter, hw]
  omega

theorem papi_probe_trace_amended_witness :
    (contractLoop papiOracleEx (contractsItems papiCdataEx)
      (groupsItems papiGdataEx)).2.Nodup ∧
    (papi_list_properties papiOracleEx).2 =
      (contractLoop papiOracleEx (contractsItems papiCdataEx)
        (groupsItems papiGdataEx)).2
        ++ (match (contractLoop papiOracleEx (contractsItems papiCdataEx)
              (groupsItems papiGdataEx)).1 with
            | some wc => [wc]
            | none => []) ∧
    ∀ p : JVal × JVal, countPair (papi_list_properties papiOracleEx).2 p ≤ 2 :=
  papi_probe_trace_amended papiOracleEx papiCdataEx papiGdataEx rfl rfl
    (by decide) (by decide)

-- ---------------- checklist generation (`generate_checklist`) -----------

/-- Stable insertion of one element into an already sorted list. -/
def sortInsert {α : Type} (le : α → α → Bool) (a : α) : List α → List α
  | [] => [a]
  | b :: rest => if le a b then a :: b :: rest else b :: sortInsert le a rest

/-- Model of Python `sorted`: a stable comparison sort.  A stable sort's
output is determined uniquely by the comparison, so insertion sort is
extensionally equal to Python's sort. -/
def pySorted {α : Type} (le : α → α → Bool) : List α → List α
  | [] => []
  | a :: rest => sortInsert le a (pySorted le rest)

/-- Lexicographic comparison of character lists by code point: the ordering
Python uses on strings. -/
def charListLe : List Char → List Char → Bool
  | [], _ => true
  | _ :: _, [] => false
  | a :: as, b :: bs =>
    if a.toNat < b.toNat then true
    else if b.toNat < a.toNat then false
    else charListLe as bs

/-- Python string `<=`: code-point lexicographic. -/
def pyStrLe (s1 s2 : String) : Bool := charListLe s1.data s2.data

/-- Python string `<`: code-point lexicographic, strict. -/
def pyStrLt (s1 s2 : String) : Bool := pyStrLe s1 s2 && !pyStrLe s2 s1

/-- Python `sorted(..., key=lambda r: r.hostname)` comparison (line 513). -/
def hostnameLe (r1 r2 : HostnameRecord) : Bool :=
  pyStrLe r1.hostname r2.hostname

/-- Python `sorted(..., key=lambda r: (r.property_name, r.property_version))`
comparison (line 519): lexicographic on the tuple. -/
def nameVersionLe (r1 r2 : HostnameRecord) : Bool :=
  pyStrLt r1.property_name r2.property_name
    || (decide (r1.property_name = r2.property_name)
      && decide (r1.property_version ≤ r2.property_version))

/-- Plain string comparison for `sorted(set(...))` (line 506). -/
def stringLe (s1 s2 : String) : Bool := pyStrLe s1 s2

def lookupStrKey {β : Type} : List (String × β) → String → Option β
  | [], _ => none
  | (k, v) :: rest, key => if k = key then some v else lookupStrKey rest key

/-- Python `sep.join(list)`. -/
def joinWith (sep : String) : List String → String
  | [] => ""
  | s :: rest => rest.foldl (fun acc x => acc ++ sep ++ x) s

/-- The fixed preamble of `generate_checklist` (lines 499-511), with the
CPS-SANs line present exactly when the apex is a key of `cps_by_sni`. -/
def checklistPreamble (apex : String)
    (cps_by_sni : List (String × List String)) : List String :=
  ["# Cloudflare migration checklist for " ++ apex, "",
   "- Create zone in Cloudflare",
   "- Set DNS nameservers or use partial (CNAME) setup as applicable",
   "- Enable Universal SSL or upload cert matching SANs"]
  ++ (match lookupStrKey cps_by_sni apex with
      | some names =>
        ["  - CPS SANs: " ++ joinWith ", " (pySorted stringLe names.eraseDups)]
      | none => [])
  ++ ["- Enable WAF managed rules; recreate custom WAF rules",
      "- Recreate cache rules and overrides",
      "- Recreate redirects (Transform or Rulesets)",
      "- Recreate header rules; enable HSTS if present",
      ""]

/-- One hostname line of the `## Hostnames` section (lines 513-516). -/
def fmtHostLine (r : HostnameRecord) : String :=
  "- " ++ r.hostname ++ " (property " ++ r.property_name ++ " v"
    ++ toString r.property_version ++ ")"

/-- The `f"{property_id}:{property_version}"` lookup key (line 520). -/
def parsedKeyOf (r : HostnameRecord) : String :=
  r.property_id ++ ":" ++ toString r.property_version

/-- The lines one host record contributes to the `## Rules summary` section
(lines 519-533): nothing when its configuration has no parsed bundle, else a
header plus one flag line per non-empty bucket and a blank line. -/
def sectionLinesFor (parsed_by_property : List (String × ParsedRules))
    (r : HostnameRecord) : List String :=
  match lookupStrKey parsed_by_property (parsedKeyOf r) with
  | none => []
  | some parsed =>
    ["### " ++ r.property_name ++ " v" ++ toString r.property_version]
    ++ (if parsed.cache.isEmpty then [] else ["- Cache behaviors present"])
    ++ (if parsed.redirects.isEmpty then [] else ["- Redirect rules present"])
    ++ (if parsed.headers.isEmpty then [] else ["- Header modifications present"])
    ++ (if parsed.hsts.isEmpty then [] else ["- HSTS present"])
    ++ [""]

/-- `generate_checklist` (lines 493-534) as its list of output lines (the
source returns them joined with a newline). -/
def generate_checklist (apex : String) (host_records : List HostnameRecord)
    (parsed_by_property : List (String × ParsedRules))
    (cps_by_sni : List (String × List String)) : List String :=
  checklistPreamble apex cps_by_sni
  ++ ["## Hostnames"]
  ++ (pySorted hostnameLe host_records).map fmtHostLine
  ++ [""]
  ++ ["## Rules summary"]
  ++ (pySorted nameVersionLe host_records).flatMap
      (sectionLinesFor parsed_by_property)

/-- The hostname listing of a checklist: what stands between the
`## Hostnames` marker and the next blank line. -/
def hostSection (lines : List String) : List String :=
  ((lines.dropWhile (fun l => l != "## Hostnames")).drop 1).takeWhile
    (fun l => l != "")

/-- The rules summary of a checklist: what follows the `## Rules summary`
marker. -/
def rulesSection (lines : List String) : List String :=
  (lines.dropWhile (fun l => l != "## Rules summary")).drop 1

theorem sortInsert_perm {α : Type} (le : α → α → Bool) (a : α) (l : List α) :
    List.Perm (sortInsert le a l) (a :: l) := by
  induction l with
  | nil => rfl
  | cons b rest ih =>
    unfold sortInsert
    by_cases h : le a b
    · simp [h]
    · simp only [h, if_false, Bool.false_eq_true]
      exact (ih.cons b).trans (List.Perm.swap a b rest)

theorem pySorted_perm {α : Type} (le : α → α → Bool) (l : List α) :
    List.Perm (pySorted le l) l := by
  induction l with
  | nil => rfl
  | cons a rest ih =>
    exact (sortInsert_perm le a (pySorted le rest)).trans (ih.cons a)

theorem sortInsert_pairwise {α : Type} (le : α → α → Bool)
    (htot : ∀ x y, le x y = true ∨ le y x = true)
    (htrans : ∀ x y z, le x y = true → le y z = true → le x z = true)
    (a : α) (l : List α) (h : l.Pairwise (fun x y => le x y = true)) :
    (sortInsert le a l).Pairwise (fun x y => le x y = true) := by
  induction l with
  | nil => simp [sortInsert]
  | cons b rest ih =>
    rcases List.pairwise_cons.1 h with ⟨hb, hrest⟩
    unfold sortInsert
    by_cases hab : le a b
    · rw [if_pos hab]
      refine List.pairwise_cons.2 ⟨?_, h⟩
      intro c hc
      rcases List.mem_cons.1 hc with rfl | hc
      · exact hab
      · exact htrans a b c hab (hb c hc)
    · rw [if_neg hab]
      refine List.pairwise_cons.2 ⟨?_, ih hrest⟩
      intro c hc
      have hc2 := (sortInsert_perm le a rest).mem_iff.1 hc
      rcases List.mem_cons.1 hc2 with hca | hc2
      · rw [hca]
        rcases htot a b with h1 | h1
        · exact absurd h1 hab
        · exact h1
      · exact hb c hc2

theorem pySorted_pairwise {α : Type} (le : α → α → Bool)
    (htot : ∀ x y, le x y = true ∨ le y x = true)
    (htrans : ∀ x y z, le x y = true → le y z = true → le x z = true)
    (l : List α) :
    (pySorted le l).Pairwise (fun x y => le x y = true) := by
  induction l with
  | nil => simp [pySorted]
  | cons a rest ih => exact sortInsert_pairwise le htot htrans a _ ih

theorem charListLe_total (l1 : List Char) :
    ∀ l2 : List Char, charListLe l1 l2 = true ∨ charListLe l2 l1 = true := by
  induction l1 with
  | nil => intro l2; left; rfl
  | cons a as ih =>
    intro l2
    cases l2 with
    | nil => right; rfl
    | cons b bs =>
      simp only [charListLe]
      by_cases hab : a.toNat < b.toNat
      · left; simp [hab]
      · by_cases hba : b.toNat < a.toNat
        · right; simp [hba]
        · rcases ih bs with h | h
          · left; simp [hab, hba, h]
          · right; simp [hab, hba, h]

theorem charListLe_trans (l1 : List Char) :
    ∀ l2 l3 : List Char, charListLe l1 l2 = true → charListLe l2 l3 = true →
      charListLe l1 l3 = true := by
  induction l1 with
  | nil => intro l2 l3 _ _; rfl
  | cons a as ih =>
    intro l2 l3 h12 h23
    cases l2 with
    | nil => simp [charListLe] at h12
    | cons b bs =>
      cases l3 with
      | nil => simp [charListLe] at h23
      | cons c cs =>
        simp only [charListLe] at h12 h23 ⊢
        by_cases hab : a.toNat < b.toNat
        · by_cases hbc : b.toNat < c.toNat
          · have : a.toNat < c.toNat := by omega
            simp [this]
          · by_cases hcb : c.toNat < b.toNat
            · simp [hbc, hcb] at h23
            · have : a.toNat < c.toNat := by omega
              simp [this]
        · by_cases hba : b.toNat < a.toNat
          · simp [hab, hba] at h12
          · by_cases hbc : b.toNat < c.toNat
            · have : a.toNat < c.toNat := by omega
              simp [this]
            · by_cases hcb : c.toNat < b.toNat
              · simp [hbc, hcb] at h23
              · have hac : ¬ a.toNat < c.toNat := by omega
                have hca : ¬ c.toNat < a.toNat := by omega
                simp [hab, hba] at h12
                simp [hbc, hcb] at h23
                simp only [hac, hca, if_false, if_neg]
                exact ih bs cs h12 h23

theorem charListLe_antisymm (l1 : List Char) :
    ∀ l2 : List Char, charListLe l1 l2 = true → charListLe l2 l1 = true →
      l1 = l2 := by
  induction l1 with
  | nil =>
    intro l2 _ h21
    cases l2 with
    | nil => rfl
    | cons b bs => simp [charListLe] at h21
  | cons a as ih =>
    intro l2 h12 h21
    cases l2 with
    | nil => simp [charListLe] at h12
    | cons b bs =>
      simp only [charListLe] at h12 h21
      by_cases hab : a.toNat < b.toNat
      · have hba : ¬ b.toNat < a.toNat := by omega
        simp [hab, hba] at h21
      · by_cases hba : b.toNat < a.toNat
        · simp [hab, hba] at h12
        · have hn : a.toNat = b.toNat := by omega
          have hchar : a = b := Char.ext (UInt32.ext hn)
          simp [hab, hba] at h12 h21
          rw [hchar, ih bs h12 h21]

theorem pyStrLe_total (s1 s2 : String) :
    pyStrLe s1 s2 = true ∨ pyStrLe s2 s1 = true :=
  charListLe_total s1.data s2.data

theorem pyStrLe_trans (s1 s2 s3 : String) (h1 : pyStrLe s1 s2 = true)
    (h2 : pyStrLe s2 s3 = true) : pyStrLe s1 s3 = true :=
  charListLe_trans s1.data s2.data s3.data h1 h2

theorem pyStrLe_antisymm (s1 s2 : String) (h1 : pyStrLe s1 s2 = true)
    (h2 : pyStrLe s2 s1 = true) : s1 = s2 := by
  have h := charListLe_antisymm s1.data s2.data h1 h2
  cases s1; cases s2; simp_all

theorem hostnameLe_total (r1 r2 : HostnameRecord) :
    hostnameLe r1 r2 = true ∨ hostnameLe r2 r1 = true :=
  pyStrLe_total r1.hostname r2.hostname

theorem hostnameLe_trans (r1 r2 r3 : HostnameRecord)
    (h1 : hostnameLe r1 r2 = true) (h2 : hostnameLe r2 r3 = true) :
    hostnameLe r1 r3 = true :=
  pyStrLe_trans r1.hostname r2.hostname r3.hostname h1 h2

theorem nameVersionLe_total (r1 r2 : HostnameRecord) :
    nameVersionLe r1 r2 = true ∨ nameVersionLe r2 r1 = true := by
  unfold nameVersionLe pyStrLt
  by_cases h12 : pyStrLe r1.property_name r2.property_name
  · by_cases h21 : pyStrLe r2.property_name r1.property_name
    · have he : r1.property_name = r2.property_name :=
        pyStrLe_antisymm _ _ h12 h21
      rcases le_total r1.property_version r2.property_version with hv | hv
      · left; simp [he, hv]
      · right; simp [he.symm, hv]
    · left; simp [h12, h21]
  · rcases pyStrLe_total r1.property_name r2.property_name with h | h
    · exact absurd h h12
    · right; simp [h, h12]

theorem nameVersionLe_trans (r1 r2 r3 : HostnameRecord)
    (h1 : nameVersionLe r1 r2 = true) (h2 : nameVersionLe r2 r3 = true) :
    nameVersionLe r1 r3 = true := by
  unfold nameVersionLe pyStrLt at *
  simp only [Bool.or_eq_true, Bool.and_eq_true, Bool.not_eq_true',
    decide_eq_true_eq] at h1 h2 ⊢
  rcases h1 with ⟨h1a, h1b⟩ | ⟨h1a, h1b⟩ <;>
    rcases h2 with ⟨h2a, h2b⟩ | ⟨h2a, h2b⟩
  · refine Or.inl ⟨pyStrLe_trans _ _ _ h1a h2a, ?_⟩
    by_cases hcon : pyStrLe r3.property_name r1.property_name
    · exact absurd (pyStrLe_trans _ _ _ h2a hcon) (by simp [h1b])
    · simpa using hcon
  · refine Or.inl ⟨?_, ?_⟩
    · rw [← h2a]; exact h1a
    · rw [← h2a]; exact h1b
  · refine Or.inl ⟨?_, ?_⟩
    · rw [h1a]; exact h2a
    · rw [h1a]; exact h2b
  · exact Or.inr ⟨h1a.trans h2a, le_trans h1b h2b⟩

theorem dropWhile_append_marker {α : Type} (p : α → Bool) (l : List α)
    (h : ∀ a ∈ l, p a = true) (x : α) (hx : p x = false) (m : List α) :
    (l ++ x :: m).dropWhile p = x :: m := by
  induction l with
  | nil => simp [List.dropWhile_cons, hx]
  | cons a rest ih =>
    have ha := h a (List.mem_cons_self a rest)
    simp only [List.cons_append, List.dropWhile_cons, ha, if_true]
    exact ih (fun b hb => h b (List.mem_cons_of_mem a hb))

theorem takeWhile_append_marker {α : Type} (p : α → Bool) (l : List α)
    (h : ∀ a ∈ l, p a = true) (x : α) (hx : p x = false) (m : List α) :
    (l ++ x :: m).takeWhile p = l := by
  induction l with
  | nil => simp [List.takeWhile_cons, hx]
  | cons a rest ih =>
    have ha := h a (List.mem_cons_self a rest)
    simp only [List.cons_append, List.takeWhile_cons, ha, if_true]
    rw [ih (fun b hb => h b (List.mem_cons_of_mem a hb))]

theorem append_ne_of_two_chars (p t : String) (c1 c2 d1 d2 : Char)
    (l1 l2 : List Char) (hp : p.data = c1 :: c2 :: l1)
    (ht : t.data = d1 :: d2 :: l2) (hne : ¬ (c1 = d1 ∧ c2 = d2)) (s : String) :
    (p ++ s) ≠ t := by
  intro h
  have h2 := congrArg String.data h
  rw [String.data_append, hp, ht] at h2
  simp only [List.cons_append, List.cons.injEq] at h2
  exact hne ⟨h2.1, h2.2.1⟩

theorem append_ne_empty_str (p : String) (c : Char) (l1 : List Char)
    (hp : p.data = c :: l1) (s : String) : (p ++ s) ≠ "" := by
  intro h
  have h2 := congrArg String.data h
  rw [String.data_append, hp] at h2
  have he : ("" : String).data = [] := rfl
  rw [he] at h2
  simp at h2

theorem fmtHostLine_eq_append (r : HostnameRecord) :
    fmtHostLine r = "- " ++ (r.hostname ++ (" (property " ++ (r.property_name
      ++ (" v" ++ (toString r.property_version ++ ")"))))) := by
  simp [fmtHostLine, String.append_assoc]

theorem fmtHostLine_ne_empty (r : HostnameRecord) :
    (fmtHostLine r != "") = true := by
  rw [bne_iff_ne, fmtHostLine_eq_append]
  exact append_ne_empty_str "- " '-' [' '] rfl _

theorem fmtHostLine_ne_rules_marker (r : HostnameRecord) :
    (fmtHostLine r != "## Rules summary") = true := by
  rw [bne_iff_ne, fmtHostLine_eq_append]
  exact append_ne_of_two_chars "- " "## Rules summary" '-' ' ' '#' '#' _ _
    rfl rfl (by decide) _

theorem checklistPreamble_ne_markers (apex : String)
    (cps_by_sni : List (String × List String)) (l : String)
    (hl : l ∈ checklistPreamble apex cps_by_sni) :
    (l != "## Hostnames") = true ∧ (l != "## Rules summary") = true := by
  unfold checklistPreamble at hl
  have htitle1 : ("# Cloudflare migration checklist for " ++ apex)
      ≠ "## Hostnames" :=
    append_ne_of_two_chars _ _ '#' ' ' '#' '#' _ _ rfl rfl (by decide) _
  have htitle2 : ("# Cloudflare migration checklist for " ++ apex)
      ≠ "## Rules summary" :=
    append_ne_of_two_chars _ _ '#' ' ' '#' '#' _ _ rfl rfl (by decide) _
  cases hlk : lookupStrKey cps_by_sni apex with
  | none =>
    rw [hlk] at hl
    simp only [List.append_nil, List.mem_append, List.mem_cons,
      List.mem_singleton, List.not_mem_nil, or_false] at hl
    rcases hl with (rfl | rfl | rfl | rfl | rfl) | (rfl | rfl | rfl | rfl | rfl)
    · exact ⟨by rw [bne_iff_ne]; exact htitle1, by rw [bne_iff_ne]; exact htitle2⟩
    all_goals exact ⟨by decide, by decide⟩
  | some names =>
    rw [hlk] at hl
    have hcps1 : ("  - CPS SANs: "
        ++ joinWith ", " (pySorted stringLe names.eraseDups)) ≠ "## Hostnames" :=
      append_ne_of_two_chars _ _ ' ' ' ' '#' '#' _ _ rfl rfl (by decide) _
    have hcps2 : ("  - CPS SANs: "
        ++ joinWith ", " (pySorted stringLe names.eraseDups))
        ≠ "## Rules summary" :=
      append_ne_of_two_chars _ _ ' ' ' ' '#' '#' _ _ rfl rfl (by decide) _
    simp only [List.mem_append, List.mem_cons, List.mem_singleton,
      List.not_mem_nil, or_false] at hl
    rcases hl with (hfive | rfl) | hfive2
    · rcases hfive with rfl | rfl | rfl | rfl | rfl
      · exact ⟨by rw [bne_iff_ne]; exact htitle1,
          by rw [bne_iff_ne]; exact htitle2⟩
      all_goals exact ⟨by decide, by decide⟩
    · exact ⟨by rw [bne_iff_ne]; exact hcps1, by rw [bne_iff_ne]; exact hcps2⟩
    · rcases hfive2 with rfl | rfl | rfl | rfl | rfl
      all_goals exact ⟨by decide, by decide⟩

theorem hostSection_generate (apex : String) (records : List HostnameRecord)
    (parsed : List (String × ParsedRules)) (cps : List (String × List String)) :
    hostSection (generate_checklist apex records parsed cps)
      = (pySorted hostnameLe records).map fmtHostLine := by
  unfold generate_checklist hostSection
  have hform : checklistPreamble apex cps ++ ["## Hostnames"]
      ++ (pySorted hostnameLe records).map fmtHostLine ++ [""]
      ++ ["## Rules summary"]
      ++ (pySorted nameVersionLe records).flatMap (sectionLinesFor parsed)
      = checklistPreamble apex cps ++ "## Hostnames"
        :: ((pySorted hostnameLe records).map fmtHostLine
          ++ "" :: ("## Rules summary"
            :: (pySorted nameVersionLe records).flatMap
                (sectionLinesFor parsed))) := by
    simp
  rw [hform]
  rw [dropWhile_append_marker _ _
    (fun a ha => (checklistPreamble_ne_markers apex cps a ha).1) _
    (by simp) _]
  simp only [List.drop_succ_cons, List.drop_zero]
  have hall : ∀ a ∈ (pySorted hostnameLe records).map fmtHostLine,
      (a != "") = true := by
    intro a ha
    rcases List.mem_map.1 ha with ⟨r, _, rfl⟩
    exact fmtHostLine_ne_empty r
  rw [takeWhile_append_marker _ _ hall "" (by decide) _]

theorem rulesSection_generate (apex : String) (records : List HostnameRecord)
    (parsed : List (String × ParsedRules)) (cps : List (String × List String)) :
    rulesSection (generate_checklist apex records parsed cps)
      = (pySorted nameVersionLe records).flatMap (sectionLinesFor parsed) := by
  unfold generate_checklist rulesSection
  have hform : checklistPreamble apex cps ++ ["## Hostnames"]
      ++ (pySorted hostnameLe records).map fmtHostLine ++ [""]
      ++ ["## Rules summary"]
      ++ (pySorted nameVersionLe records).flatMap (sectionLinesFor parsed)
      = (checklistPreamble apex cps ++ "## Hostnames"
          :: ((pySorted hostnameLe records).map fmtHostLine ++ [""]))
        ++ "## Rules summary"
          :: (pySorted nameVersionLe records).flatMap (sectionLinesFor parsed) := by
    simp
  rw [hform]
  have hall : ∀ a ∈ checklistPreamble apex cps ++ "## Hostnames"
      :: ((pySorted hostnameLe records).map fmtHostLine ++ [""]),
      (a != "## Rules summary") = true := by
    intro a ha
    rcases List.mem_append.1 ha with ha | ha
    · exact (checklistPreamble_ne_markers apex cps a ha).2
    · rcases List.mem_cons.1 ha with rfl | ha
      · decide
      · rcases List.mem_append.1 ha with ha | ha
        · rcases List.mem_map.1 ha with ⟨r, _, rfl⟩
          exact fmtHostLine_ne_rules_marker r
        · rw [List.mem_singleton] at ha
          subst ha
          decide
  rw [dropWhile_append_marker _ _ hall _ (by decide) _]
  simp only [List.drop_succ_cons, List.drop_zero]

/-- C4 (amended): the checklist's hostname section lists exactly the host
records sorted stably by hostname — a permutation of the input records whose
hostname column is in code-point lexicographic order — and its rules-summary
section consists of one block per host record whose configuration has a
parsed bundle, emitted in order of (configuration name, version); a
configuration with several hostname records therefore repeats its summary
block once per record, rather than appearing exactly once per distinct
configuration as the claim states. -/
theorem generate_checklist_layout (apex : String)
    (records : List HostnameRecord) (parsed : List (String × ParsedRules))
    (cps : List (String × List String)) :
    hostSection (generate_checklist apex records parsed cps)
        = (pySorted hostnameLe records).map fmtHostLine
    ∧ List.Perm (pySorted hostnameLe records) records
    ∧ ((pySorted hostnameLe records).map (fun r => r.hostname)).Pairwise
        (fun s1 s2 => pyStrLe s1 s2 = true)
    ∧ rulesSection (generate_checklist apex records parsed cps)
        = (pySorted nameVersionLe records).flatMap (sectionLinesFor parsed)
    ∧ List.Perm (pySorted nameVersionLe records) records
    ∧ (pySorted nameVersionLe records).Pairwise
        (fun r1 r2 => nameVersionLe r1 r2 = true) := by
  refine ⟨hostSection_generate apex records parsed cps, pySorted_perm _ _, ?_,
    rulesSection_generate apex records parsed cps, pySorted_perm _ _,
    pySorted_pairwise _ nameVersionLe_total
      (fun x y z => nameVersionLe_trans x y z) _⟩
  have h := pySorted_pairwise hostnameLe hostnameLe_total
    (fun x y z => hostnameLe_trans x y z) records
  exact List.pairwise_map.2 (h.imp (fun hxy => hxy))

def chkRecordA : HostnameRecord :=
  { apex := "example.com", hostname := "a.example.com",
    property_name := "P", property_id := "p1", property_version := 1 }

def chkRecordB : HostnameRecord :=
  { apex := "example.com", hostname := "b.example.com",
    property_name := "P", property_id := "p1", property_version := 1 }

def chkParsedEx : List (String × ParsedRules) :=
  [("p1:1", { cache := [jobj []], redirects := [], headers := [], hsts := [] })]

/-- C4's per-distinct-configuration part is false on the code: two hostname
records of the same configuration (name "P", version 1) yield two identical
rules-summary section headers although there is exactly one distinct
configuration. -/
theorem checklist_duplicate_sections :
    ((generate_checklist "example.com" [chkRecordA, chkRecordB]
        chkParsedEx []).filter (fun l => decide (l = "### P v1"))).length = 2
    ∧ (([chkRecordA, chkRecordB].map
        (fun r => (r.property_name, r.property_version))).eraseDups).length
      = 1 := by
  constructor
  · decide
  · decide

-- ---------------- credentials and CLI entry -----------------------------

/-- `env_or_none` (lines 540-542): an unset or empty variable yields `none`. -/
def env_or_none (env : String → Option String) (name : String) : Option String :=
  match env name with
  | some v => if v = "" then none else some v
  | none => none

/-- `build_api_context` (lines 545-574): `Except.error 2` models `sys.exit(2)`
when any of the four credential variables is missing; success carries no data
here (the signing context itself performs no I/O). -/
def build_api_context (env : String → Option String) : Except Nat Unit :=
  if (env_or_none env "AKAMAI_HOST").isSome
      && (env_or_none env "AKAMAI_CLIENT_TOKEN").isSome
      && (env_or_none env "AKAMAI_CLIENT_SECRET").isSome
      && (env_or_none env "AKAMAI_ACCESS_TOKEN").isSome
  then .ok ()
  else .error 2

/-- The full sequence of PAPI GET calls `papi_list_properties` issues (its
trace above keeps only the properties-path calls). -/
def papiCalls (get : PapiPath → Except Unit JVal) : List PapiPath :=
  match get .contracts with
  | .error _ => [.contracts]
  | .ok cdata =>
    if (contractsItems cdata).isEmpty then [.contracts]
    else
      match get .groups with
      | .error _ => [.contracts, .groups]
      | .ok gdata =>
        if (groupsItems gdata).isEmpty then [.contracts, .groups]
        else
          let r := contractLoop get (contractsItems cdata) (groupsItems gdata)
          [.contracts, .groups] ++ r.2.map (fun p => .properties p.1 p.2)
            ++ (match r.1 with
                | some wc => [.properties wc.1 wc.2]
                | none => [])

/-- The prefix of `main` (lines 608-631): `build_api_context` runs first and
`sys.exit(2)` aborts before any network call; then the properties listing
runs, a failure there exiting 1.  The second component is the list of network
calls issued. -/
def mainStart (env : String → Option String)
    (get : PapiPath → Except Unit JVal) : Nat × List PapiPath :=
  match build_api_context env with
  | .error c => (c, [])
  | .ok () =>
    match (papi_list_properties get).1 with
    | .error _ => (1, papiCalls get)
    | .ok _ => (0, papiCalls get)

/-- C6: if any of the four required credential variables is absent from the
environment (unset, or set to the empty string, which `env_or_none` maps to
`None`), the run exits with status code 2 and the network call list is empty
— no network call is attempted. -/
theorem missing_credentials_exit_2 (env : String → Option String)
    (get : PapiPath → Except Unit JVal)
    (h : env_or_none env "AKAMAI_HOST" = none
      ∨ env_or_none env "AKAMAI_CLIENT_TOKEN" = none
      ∨ env_or_none env "AKAMAI_CLIENT_SECRET" = none
      ∨ env_or_none env "AKAMAI_ACCESS_TOKEN" = none) :
    mainStart env get = (2, []) := by
  unfold mainStart build_api_context
  rcases h with h | h | h | h <;> simp [h]

theorem missing_credentials_exit_2_witness :
    mainStart (fun _ => none) papiOracleEx = (2, []) :=
  missing_credentials_exit_2 (fun _ => none) papiOracleEx (Or.inl rfl)

-- ---------------- auxiliary resource fetchers ---------------------------

/-- `data.get(key, [])` viewed as a list. -/
def envelopeList (d : JVal) (key : String) : List JVal :=
  asList (pyGetD d key (jarr []))

/-- `cps_list_enrollments` (lines 222-227). -/
def cps_list_enrollments (get : String → Except Unit JVal) : List JVal :=
  match get "cps/v2/enrollments" with
  | .ok data => envelopeList data "enrollments"
  | .error _ => []

/-- `appsec_list_configs` (lines 233-238). -/
def appsec_list_configs (get : String → Except Unit JVal) : List JVal :=
  match get "appsec/v1/configs" with
  | .ok data => envelopeList data "configs"
  | .error _ => []

/-- `appsec_list_policies` (lines 241-250). -/
def appsec_list_policies (get : String → Except Unit JVal)
    (config_id version : Int) : List JVal :=
  match get ("appsec/v1/configs/" ++ toString config_id ++ "/versions/"
      ++ toString version ++ "/security-policies") with
  | .ok data => envelopeList data "policies"
  | .error _ => []

/-- `edgedns_list_zones` (lines 315-328): v2 first; on exception or an empty
v2 zone list, v1; any remaining exception yields `[]`. -/
def edgedns_list_zones (get : String → Except Unit JVal) : List JVal :=
  let v1 := match get "config-dns/v1/zones" with
    | .ok data => envelopeList data "zones"
    | .error _ => []
  match get "config-dns/v2/zones" with
  | .ok data =>
    let zones := envelopeList data "zones"
    if zones.isEmpty then v1 else zones
  | .error _ => v1

/-- The `{"items": ...}`-or-bare-list response shape used by the GTM
fetchers (lines 331-422). -/
def itemsOrList (v : JVal) : List JVal :=
  match v with
  | .obj fs =>
    if (fs.lookupKey "items").isSome then envelopeList v "items" else []
  | .arr xs => xs.toList
  | _ => []

/-- `gtm_list_domains` (lines 331-341). -/
def gtm_list_domains (get : String → Except Unit JVal) : List JVal :=
  match get "gtm/v1/domains" with
  | .ok data => itemsOrList data
  | .error _ => []

/-- `gtm_list_datacenters` (lines 344-353). -/
def gtm_list_datacenters (get : String → Except Unit JVal)
    (domain : String) : List JVal :=
  match get ("gtm/v1/domains/" ++ domain ++ "/datacenters") with
  | .ok data => itemsOrList data
  | .error _ => []

/-- `gtm_list_properties` (lines 356-365). -/
def gtm_list_properties (get : String → Except Unit JVal)
    (domain : String) : List JVal :=
  match get ("gtm/v1/domains/" ++ domain ++ "/properties") with
  | .ok data => itemsOrList data
  | .error _ => []

/-- `gtm_get_property` (lines 368-374): `{}` on exception. -/
def gtm_get_property (get : String → Except Unit JVal)
    (domain property_name : String) : JVal :=
  match get ("gtm/v1/domains/" ++ domain ++ "/properties/" ++ property_name) with
  | .ok data => data
  | .error _ => jobj []

/-- `gtm_list_liveness_tests` (lines 377-386). -/
def gtm_list_liveness_tests (get : String → Except Unit JVal)
    (domain : String) : List JVal :=
  match get ("gtm/v1/domains/" ++ domain ++ "/liveness-tests") with
  | .ok data => itemsOrList data
  | .error _ => []

/-- `gtm_list_cidr_maps` (lines 389-398). -/
def gtm_list_cidr_maps (get : String → Except Unit JVal)
    (domain : String) : List JVal :=
  match get ("gtm/v1/domains/" ++ domain ++ "/cidr-maps") with
  | .ok data => itemsOrList data
  | .error _ => []

/-- `gtm_list_geo_maps` (lines 401-410). -/
def gtm_list_geo_maps (get : String → Except Unit JVal)
    (domain : String) : List JVal :=
  match get ("gtm/v1/domains/" ++ domain ++ "/geo-maps") with
  | .ok data => itemsOrList data
  | .error _ => []

/-- `gtm_list_as_maps` (lines 413-422). -/
def gtm_list_as_maps (get : String → Except Unit JVal)
    (domain : String) : List JVal :=
  match get ("gtm/v1/domains/" ++ domain ++ "/as-maps") with
  | .ok data => itemsOrList data
  | .error _ => []

/-- `edgeworkers_list` (lines 425-430). -/
def edgeworkers_list (get : String → Except Unit JVal) : List JVal :=
  match get "edgeworkers/v1/edgeworkers" with
  | .ok data => envelopeList data "edgeworkers"
  | .error _ => []

/-- `cloudlets_list_policies` (lines 433-438). -/
def cloudlets_list_policies (get : String → Except Unit JVal) : List JVal :=
  match get "cloudlets/v2/policies" with
  | .ok data =>
    match data with
    | .obj _ => envelopeList data "policies"
    | other => asList other
  | .error _ => []

/-- One Cloud Wrapper response's non-empty item extraction (lines 446-457). -/
def cloud_wrapper_items (d : JVal) : List JVal :=
  match d with
  | .obj _ =>
    let items := pyOr (pyGet d "items") (pyOr (pyGet d "containers")
      (pyOr (pyGet d "configurations") (jarr [])))
    if truthy items then asList items else []
  | .arr xs => if xs.toList.isEmpty then [] else xs.toList
  | _ => []

/-- `cloud_wrapper_list` (lines 441-460): tries the containers path, then the
configurations path; any exception or empty result moves on; `[]` if both
yield nothing. -/
def cloud_wrapper_list (get : String → Except Unit JVal) : List JVal :=
  let second := match get "cloud-wrapper/v1/configurations" with
    | .ok d => cloud_wrapper_items d
    | .error _ => []
  match get "cloud-wrapper/v1/containers" with
  | .ok d =>
    if (cloud_wrapper_items d).isEmpty then second else cloud_wrapper_items d
  | .error _ => second

/-- C7: for every auxiliary resource fetcher, when its underlying signed GET
raises (every GET it may fall back to included), the fetcher returns the
empty list — `{}` for the single-object `gtm_get_property` — and, the model
being a total function, no exception propagates: the run continues. -/
theorem fetchers_swallow_errors (get : String → Except Unit JVal) :
    (get "cps/v2/enrollments" = .error () → cps_list_enrollments get = [])
  ∧ (get "appsec/v1/configs" = .error () → appsec_list_configs get = [])
  ∧ (∀ config_id version : Int,
      get ("appsec/v1/configs/" ++ toString config_id ++ "/versions/"
        ++ toString version ++ "/security-policies") = .error ()
      → appsec_list_policies get config_id version = [])
  ∧ (get "config-dns/v2/zones" = .error ()
      → get "config-dns/v1/zones" = .error ()
      → edgedns_list_zones get = [])
  ∧ (get "gtm/v1/domains" = .error () → gtm_list_domains get = [])
  ∧ (∀ domain, get ("gtm/v1/domains/" ++ domain ++ "/datacenters") = .error ()
      → gtm_list_datacenters get domain = [])
  ∧ (∀ domain, get ("gtm/v1/domains/" ++ domain ++ "/properties") = .error ()
      → gtm_list_properties get domain = [])
  ∧ (∀ domain property_name,
      get ("gtm/v1/domains/" ++ domain ++ "/properties/" ++ property_name)
        = .error ()
      → gtm_get_property get domain property_name = jobj [])
  ∧ (∀ domain, get ("gtm/v1/domains/" ++ domain ++ "/liveness-tests") = .error ()
      → gtm_list_liveness_tests get domain = [])
  ∧ (∀ domain, get ("gtm/v1/domains/" ++ domain ++ "/cidr-maps") = .error ()
      → gtm_list_cidr_maps get domain = [])
  ∧ (∀ domain, get ("gtm/v1/domains/" ++ domain ++ "/geo-maps") = .error ()
      → gtm_list_geo_maps get domain = [])
  ∧ (∀ domain, get ("gtm/v1/domains/" ++ domain ++ "/as-maps") = .error ()
      → gtm_list_as_maps get domain = [])
  ∧ (get "edgeworkers/v1/edgeworkers" = .error ()
      → edgeworkers_list get = [])
  ∧ (get "cloudlets/v2/policies" = .error ()
      → cloudlets_list_policies get = [])
  ∧ (get "cloud-wrapper/v1/containers" = .error ()
      → get "cloud-wrapper/v1/configurations" = .error ()
      → cloud_wrapper_list get = []) := by
  refine ⟨?_, ?_, ?_, ?_, ?_, ?_, ?_, ?_, ?_, ?_, ?_, ?_, ?_, ?_, ?_⟩
  · intro h; unfold cps_list_enrollments; rw [h]
  · intro h; unfold appsec_list_configs; rw [h]
  · intro config_id version h; unfold appsec_list_policies; rw [h]
  · intro h2 h1; unfold edgedns_list_zones; rw [h2, h1]
  · intro h; unfold gtm_list_domains; rw [h]
  · intro domain h; unfold gtm_list_datacenters; rw [h]
  · intro domain h; unfold gtm_list_properties; rw [h]
  · intro domain property_name h; unfold gtm_get_property; rw [h]
  · intro domain h; unfold gtm_list_liveness_tests; rw [h]
  · intro domain h; unfold gtm_list_cidr_maps; rw [h]
  · intro domain h; unfold gtm_list_geo_maps; rw [h]
  · intro domain h; unfold gtm_list_as_maps; rw [h]
  · intro h; unfold edgeworkers_list; rw [h]
  · intro h; unfold cloudlets_list_policies; rw [h]
  · intro h1 h2; unfold cloud_wrapper_list; rw [h1, h2]

/-- A GET oracle on which every call raises. -/
def failGet : String → Except Unit JVal := fun _ => .error ()

theorem fetchers_swallow_errors_witness :
    cps_list_enrollments failGet = []
  ∧ appsec_list_configs failGet = []
  ∧ appsec_list_policies failGet 1 1 = []
  ∧ edgedns_list_zones failGet = []
  ∧ gtm_list_domains failGet = []
  ∧ gtm_list_datacenters failGet "d" = []
  ∧ gtm_list_properties failGet "d" = []
  ∧ gtm_get_property failGet "d" "p" = jobj []
  ∧ gtm_list_liveness_tests failGet "d" = []
  ∧ gtm_list_cidr_maps failGet "d" = []
  ∧ gtm_list_geo_maps failGet "d" = []
  ∧ gtm_list_as_maps failGet "d" = []
  ∧ edgeworkers_list failGet = []
  ∧ cloudlets_list_policies failGet = []
  ∧ cloud_wrapper_list failGet = [] := by
  have h := fetchers_swallow_errors failGet
  exact ⟨h.1 rfl, h.2.1 rfl, h.2.2.1 1 1 rfl, h.2.2.2.1 rfl rfl,
    h.2.2.2.2.1 rfl, h.2.2.2.2.2.1 "d" rfl, h.2.2.2.2.2.2.1 "d" rfl,
    h.2.2.2.2.2.2.2.1 "d" "p" rfl, h.2.2.2.2.2.2.2.2.1 "d" rfl,
    h.2.2.2.2.2.2.2.2.2.1 "d" rfl, h.2.2.2.2.2.2.2.2.2.2.1 "d" rfl,
    h.2.2.2.2.2.2.2.2.2.2.2.1 "d" rfl, h.2.2.2.2.2.2.2.2.2.2.2.2.1 rfl,
    h.2.2.2.2.2.2.2.2.2.2.2.2.2.1 rfl,
    h.2.2.2.2.2.2.2.2.2.2.2.2.2.2 rfl rfl⟩
